import Mathlib

/-!
Verification of the package-policy core (dependency extractor, registry
metadata cache, popularity cache, policy evaluator, approval reconciler)
against a shallow embedding of the TypeScript sources in `src/lib`.

File system access, JSON/YAML parsing and the network are external
collaborators; they are modelled as explicit inputs (already-parsed values,
`Except`-wrapped fetch results).  Pure control flow, string manipulation and
data shaping are translated statement by statement from the source.
-/

namespace PackagePolicy

/-- Association-list lookup, modelling JavaScript property access
`obj[key]` on the plain string-keyed objects used throughout the source
(`deps[nameWithVersion]`, `config.blacklist?.[name]`, `cache.versions[v]`,
`packageDownloadCache[name]`). Returns `none` when the key is absent. -/
def lookupKey {α : Type} : List (String × α) → String → Option α
  | [], _ => none
  | (k, v) :: rest, key => if key = k then some v else lookupKey rest key

/-- JavaScript `a || b` on `Option` results (first operand when present). -/
def optOr {α : Type} (a b : Option α) : Option α :=
  match a with
  | some v => some v
  | none => b

/-- Does the pattern `pat` occur in `cs` starting at position `i`?
Helper for `jsLastIndexOf`. -/
def occursAt (cs pat : List Char) (i : Nat) : Bool :=
  List.isPrefixOf pat (cs.drop i)

/-- JavaScript `String.prototype.lastIndexOf`: index of the last occurrence
of `pat` in `cs`, `-1` when there is none. -/
def jsLastIndexOf (cs pat : List Char) : Int :=
  match (((List.range (cs.length + 1)).filter (occursAt cs pat)).getLast?) with
  | some i => (i : Int)
  | none => -1

/-- Node's `path.basename`: strip trailing separators, then keep the part
after the last `/`. -/
def nodeBasename (cs : List Char) : List Char :=
  let t := ((cs.reverse).dropWhile (fun c => c = '/')).reverse
  ((t.reverse).takeWhile (fun c => c ≠ '/')).reverse

/-- `packageNameFromPath` from `src/lib/utils.ts`: infer a package name from
a lockfile installation path.  Last `node_modules/` segment if it occurs at
a positive index, else from the last `@` (scoped packages at the path start),
else the basename. -/
def packageNameFromPath (p : String) : String :=
  let cs := p.toList
  let nm := ("node_modules/").toList
  let i := jsLastIndexOf cs nm
  if 0 < i then
    String.mk (cs.drop (i.toNat + nm.length))
  else
    let i1 := jsLastIndexOf cs ['@']
    if 0 < i1 then
      String.mk (cs.drop i1.toNat)
    else
      String.mk (nodeBasename cs)

/-- The policy configuration (`interface Config` in `src/lib/index.ts`).
`blacklist` and `ignore` are the string-keyed range maps. -/
structure Config where
  minPackageAge : Option Int
  minWeeklyDownloads : Option Int
  checkNodeVersion : Bool
  licenses : List String
  blacklist : List (String × String)
  ignore : List (String × String)
deriving DecidableEq

/-- One value of the npm lockfile `packages` map
(`{name?, version, license?, link?, optional?}`). -/
structure LockSpec where
  name : Option String
  version : String
  license : Option String
  link : Bool
  optional : Bool
deriving DecidableEq

/-- `interface Dependency` from `src/lib/index.ts`. -/
structure Dependency where
  name : String
  path : String
  version : String
  license : Option String
deriving DecidableEq

/-- `spec.name || packageNameFromPath(installationPath)` — the explicit
`name` field wins unless it is missing or falsy (empty string). -/
def lockEntryName (p : String) (s : LockSpec) : String :=
  match s.name with
  | some n => if n = "" then packageNameFromPath p else n
  | none => packageNameFromPath p

/-- The dependency record the extractor stores for a surviving entry. -/
def depOfEntry (p : String) (s : LockSpec) : Dependency :=
  { name := lockEntryName p s
    path := p
    version := s.version
    license := s.license }

/-- `d.name ++ "@" ++ d.version`, the deduplication key of a dependency. -/
def keyOfDep (d : Dependency) : String := d.name ++ "@" ++ d.version

/-- `blacklistVersion && semver.satisfies(version, blacklistVersion, {includePrerelease: true})`.
`semver.satisfies` is the external semver library, passed in as `sat`;
a missing or empty (falsy) range never matches. -/
def blacklistHit (cfg : Config) (sat : String → String → Bool)
    (name version : String) : Bool :=
  match lookupKey cfg.blacklist name with
  | some r => if r = "" then false else sat version r
  | none => false

/-- `ignoreVersion && semver.satisfies(version, ignoreVersion, {includePrerelease: true})`. -/
def ignoreHit (cfg : Config) (sat : String → String → Bool)
    (name version : String) : Bool :=
  match lookupKey cfg.ignore name with
  | some r => if r = "" then false else sat version r
  | none => false

/-- The entry loop of `readInstalledPackagesFromLockfile`
(`src/lib/index.ts`, npm branch): walk the lockfile `packages` map in
order, skipping the root entry and linked entries, deduplicating by
`name@version` (first occurrence wins), aborting on a blacklist match and
dropping ignored entries.  `acc` is the `deps` object; insertion order is
preserved by appending, matching JS object key order. -/
def collectDeps (cfg : Config) (sat : String → String → Bool) :
    List (String × LockSpec) → List (String × Dependency) →
    Except String (List (String × Dependency))
  | [], acc => .ok acc
  | (p, s) :: rest, acc =>
    if p = "" then
      collectDeps cfg sat rest acc
    else if s.link then
      collectDeps cfg sat rest acc
    else
      let name := lockEntryName p s
      let key := name ++ "@" ++ s.version
      if (lookupKey acc key).isSome then
        collectDeps cfg sat rest acc
      else if blacklistHit cfg sat name s.version then
        .error ("Blacklisted version " ++ name ++ "@" ++ s.version)
      else if ignoreHit cfg sat name s.version then
        collectDeps cfg sat rest acc
      else
        collectDeps cfg sat rest (acc ++ [(key, depOfEntry p s)])

/-- Ordering used by the final `.sort` of the extractor: ascending by
package name (`a.name < b.name ? -1 : a.name > b.name ? 1 : 0`). -/
def depLe (a b : Dependency) : Prop := a.name ≤ b.name

instance : DecidableRel depLe :=
  fun a b => inferInstanceAs (Decidable (a.name ≤ b.name))

instance : IsTotal Dependency depLe := ⟨fun a b => le_total a.name b.name⟩

instance : IsTrans Dependency depLe := ⟨fun _ _ _ h1 h2 => le_trans h1 h2⟩

/-- `readInstalledPackagesFromLockfile` (npm branch): collect the deduplicated
dependencies, then `Object.values(deps).sort(...)` sorted by name.  The
lockfile has already been read and JSON-parsed into `entries` (file I/O is
external); the yarn/pnpm/no-lockfile branches throw before reaching this
code and carry no further logic. -/
def readInstalledPackagesFromLockfile (cfg : Config)
    (sat : String → String → Bool) (entries : List (String × LockSpec)) :
    Except String (List Dependency) :=
  (collectDeps cfg sat entries []).map
    (fun acc => List.insertionSort depLe (acc.map Prod.snd))

/-- Specification-side description of deduplication: the dependency the run
keeps for a given `name@version` key is built from the first non-root,
non-linked, non-ignored entry bearing that key.  Used to state the
"first occurrence wins" refinement of the extractor. -/
def firstOccurrenceDep (cfg : Config) (sat : String → String → Bool) :
    List (String × LockSpec) → String → Option Dependency
  | [], _ => none
  | (p, s) :: rest, key =>
    if p = "" then firstOccurrenceDep cfg sat rest key
    else if s.link then firstOccurrenceDep cfg sat rest key
    else
      let name := lockEntryName p s
      let k := name ++ "@" ++ s.version
      if k = key then
        if ignoreHit cfg sat name s.version then firstOccurrenceDep cfg sat rest key
        else some (depOfEntry p s)
      else firstOccurrenceDep cfg sat rest key

/-- `processRepo` runs the network loop (registry and popularity fetches)
only after `readInstalledPackagesFromLockfile` has returned; an extraction
error propagates first.  Given any fetch plan for a successfully extracted
dependency list, the number of network requests a run performs is zero when
extraction throws. -/
def runNetworkFetches (cfg : Config) (sat : String → String → Bool)
    (entries : List (String × LockSpec)) (plan : List Dependency → Nat) : Nat :=
  match readInstalledPackagesFromLockfile cfg sat entries with
  | .error _ => 0
  | .ok deps => plan deps

/-! ### Warnings and the approval-cache reconciler -/

/-- `interface Warning` from `src/lib/index.ts`.  `type` is one of
`license | minPackageAge | minWeeklyDownloads | script`; every constructed
warning sets a `cacheKey`, so both are plain strings here.  Chalk styling
inside `message` is terminal formatting and is elided. -/
structure Warning where
  package : String
  message : String
  cacheKey : String
  type : String
deriving DecidableEq

/-- One entry of the persisted approval record
(`{package, type, cacheKey}` in `package-policy.lock`). -/
structure CacheEntry where
  package : String
  type : String
  cacheKey : String
deriving DecidableEq

/-- The index key `` `${c.package}${c.cacheKey}${c.type}` `` built from a
prior approval-record entry (`processRepo`, cache index loop). -/
def entryIdentityConcat (c : CacheEntry) : String :=
  c.package ++ c.cacheKey ++ c.type

/-- The lookup key `` `${problem.package}${problem.cacheKey}${problem.type}` ``
built from a collected warning (`processRepo`, approval filter). -/
def warningIdentityConcat (w : Warning) : String :=
  w.package ++ w.cacheKey ++ w.type

/-- `cacheIndex.has(k)`: a collected warning counts as previously approved
when some prior record entry produces the same concatenated key. -/
def isPreviouslyApproved (prior : List CacheEntry) (w : Warning) : Bool :=
  prior.any (fun c => entryIdentityConcat c == warningIdentityConcat w)

/-- `warnings.filter(...)`: keep only the warnings that are not previously
approved. -/
def filterUnapproved (prior : List CacheEntry) (ws : List Warning) : List Warning :=
  ws.filter (fun w => !(isPreviouslyApproved prior w))

/-- The record entry written for a collected warning
(`{package: problem.package, type: problem.type, cacheKey: problem.cacheKey}`). -/
def entryOfWarning (w : Warning) : CacheEntry :=
  { package := w.package, type := w.type, cacheKey := w.cacheKey }

/-- Ordering of the rebuilt record: ascending by the `package` field
(`a.package < b.package ? -1 : ...`). -/
def entryLe (a b : CacheEntry) : Prop := a.package ≤ b.package

instance : DecidableRel entryLe :=
  fun a b => inferInstanceAs (Decidable (a.package ≤ b.package))

instance : IsTotal CacheEntry entryLe := ⟨fun a b => le_total a.package b.package⟩

instance : IsTrans CacheEntry entryLe := ⟨fun _ _ _ h1 h2 => le_trans h1 h2⟩

/-- `processRepo`'s rebuild step: `cacheData = []`, refill it with the
identity triples of every currently collected warning, then sort by package
name.  The prior record is not consulted (full replace). -/
def rebuildApprovalRecord (warnings : List Warning) : List CacheEntry :=
  List.insertionSort entryLe (warnings.map entryOfWarning)

/-- The tail of `processRepo`: zero unapproved warnings return successfully
before the prompt; CI mode exits 1 without writing; interactively, answer
`"y"` writes the rebuilt record and succeeds, anything else exits 1.
`answer` is the string the `read` prompt resolved with. -/
structure RunDecision where
  exitCode : Nat
  written : Option (List CacheEntry)
  prompted : Bool
deriving DecidableEq

/-- `processRepo` decision logic (`src/lib/index.ts`, lines 541–574). -/
def decideRun (unapprovedCount : Nat) (ciMode : Bool) (answer : String)
    (rebuilt : List CacheEntry) : RunDecision :=
  if unapprovedCount = 0 then ⟨0, none, false⟩
  else if ciMode then ⟨1, none, false⟩
  else if answer = "y" then ⟨0, some rebuilt, true⟩
  else ⟨1, none, true⟩

/-! ### Registry metadata cache (`cacheRegistry`) -/

/-- Per-version metadata kept in the registry cache
(`{license: data.license, scripts: data.scripts}`). -/
structure VersionMeta where
  license : Option String
  scripts : List (String × String)
deriving DecidableEq

/-- The on-disk registry cache record
(`{_version: 1, time, versions}` in `<cacheDir>/<package>.json`).  A `time`
value is `some s` when the JSON value is the string `s` and `none` when it
is present with a non-string value (the `typeof` check). -/
structure RegCacheRecord where
  formatVersion : Int
  time : List (String × Option String)
  versions : List (String × VersionMeta)
deriving DecidableEq

/-- A parsed registry response: `versions` / `time` are `none` when the
field is missing from the JSON body (`!json.versions`, `!json.time`). -/
structure RegistryResponse where
  versions : Option (List (String × VersionMeta))
  time : Option (List (String × Option String))
deriving DecidableEq

/-- Result of one `cacheRegistry` call: the returned (or thrown) record,
how many registry fetches were performed, and what was written to the cache
file.  Cache writes are best-effort in the source (a failure is logged and
ignored); the model records the attempted write. -/
structure CacheRegistryResult where
  result : Except String RegCacheRecord
  fetches : Nat
  persisted : Option RegCacheRecord

/-- The miss path of `cacheRegistry`: one fetch of
`https://registry.npmjs.org/<package>`, validation of the `versions` and
`time` fields, reduction to `{_version: 1, time, versions:{license,scripts}}`
(the per-version reduction is the identity on the modelled fields), and the
best-effort cache write. -/
def fetchAndBuild (cacheEnabled : Bool) (packageName version : String)
    (resp : RegistryResponse) : CacheRegistryResult :=
  let url := "https://registry.npmjs.org/" ++ packageName
  match resp.versions with
  | none => ⟨.error ("No versions field in " ++ url), 1, none⟩
  | some vs =>
    if (lookupKey vs version).isSome then
      match resp.time with
      | none => ⟨.error ("No time field in " ++ url), 1, none⟩
      | some tm =>
        match lookupKey tm version with
        | some (some _) =>
          let requiredData : RegCacheRecord := ⟨1, tm, vs⟩
          ⟨.ok requiredData, 1, if cacheEnabled then some requiredData else none⟩
        | _ =>
          ⟨.error (packageName ++ "@" ++ version ++ " has no time field in the registry!"),
            1, none⟩
    else
      ⟨.error (packageName ++ "@" ++ version ++ " was not found in the registry!"), 1, none⟩

/-- `cacheRegistry` from `src/lib/index.ts`: with caching enabled and a
readable on-disk record (`disk = some cache`; a missing or unparsable file
is `none`) whose `_version` is 1 and whose `versions` map contains the
requested version, return it with no fetch; every other case (including the
caught invalid-version throw) falls through to the fetch path. -/
def cacheRegistry (cacheEnabled : Bool) (disk : Option RegCacheRecord)
    (packageName version : String) (resp : RegistryResponse) : CacheRegistryResult :=
  match cacheEnabled, disk with
  | true, some cache =>
    if cache.formatVersion = 1 ∧ (lookupKey cache.versions version).isSome then
      ⟨.ok cache, 0, none⟩
    else
      fetchAndBuild true packageName version resp
  | ce, _ => fetchAndBuild ce packageName version resp

/-! ### Popularity (weekly downloads) -/

/-- A parsed popularity response: `downloads` is `some n` when the JSON
body has a numeric `downloads` field, `none` otherwise. -/
structure DownloadsResponse where
  downloads : Option Int
deriving DecidableEq

/-- `checkPackageDownloads` from `src/lib/package-downloads.ts`.  The input
is the outcome of `fetch`/`req.json()` (`.error` = network or JSON
failure, which the function does not catch and therefore propagates).  A
response without a numeric `downloads` field throws. -/
def checkPackageDownloads (resp : Except String DownloadsResponse) : Except String Int :=
  match resp with
  | .error e => .error e
  | .ok json =>
    match json.downloads with
    | some n => .ok n
    | none => .error "Bad response: no `downloads` field"

/-- The per-dependency downloads lookup in `processRepo`:
`packageDownloadCache[dep.name] || (await checkPackageDownloads(dep.name))`.
Returns the downloads value used and whether a network fetch was performed;
`fetched` is the value the fetch would produce.  A cached `0` is falsy in
JavaScript, so it does not suppress the fetch. -/
def getPackageDownloads (cache : List (String × Int)) (name : String)
    (fetched : Int) : Int × Bool :=
  match lookupKey cache name with
  | some v => if v = 0 then (fetched, true) else (v, false)
  | none => (fetched, true)

/-- The `minWeeklyDownloads` warning emission in `processRepo`: only when
`downloads !== -1 && downloads < config.minWeeklyDownloads`, with
`cacheKey: String(config.minWeeklyDownloads)`. -/
def minWeeklyDownloadsWarning (minWeeklyDownloads : Int) (packageName : String)
    (downloads : Int) : Option Warning :=
  if downloads ≠ -1 ∧ downloads < minWeeklyDownloads then
    some { package := packageName
           message := "had " ++ toString downloads ++ " downloads last week"
           cacheKey := toString minWeeklyDownloads
           type := "minWeeklyDownloads" }
  else none

/-! ### Helper lemmas -/

theorem optOr_some {α : Type} (v : α) (b : Option α) : optOr (some v) b = some v := rfl

theorem optOr_none {α : Type} (b : Option α) : optOr none b = b := rfl

theorem lookupKey_append {α : Type} (l l' : List (String × α)) (k : String) :
    lookupKey (l ++ l') k = optOr (lookupKey l k) (lookupKey l' k) := by
  induction l with
  | nil => simp [lookupKey, optOr_none]
  | cons hd tl ih =>
    obtain ⟨k', v⟩ := hd
    by_cases h : k = k' <;> simp [lookupKey, h, ih, optOr_some]

theorem lookupKey_eq_none {α : Type} (l : List (String × α)) (k : String) :
    lookupKey l k = none ↔ k ∉ l.map Prod.fst := by
  induction l with
  | nil => simp [lookupKey]
  | cons hd tl ih =>
    obtain ⟨k', v⟩ := hd
    by_cases h : k = k' <;> simp [lookupKey, h, ih]

theorem lookupKey_isSome_iff {α : Type} (l : List (String × α)) (k : String) :
    (lookupKey l k).isSome = true ↔ k ∈ l.map Prod.fst := by
  rw [Option.isSome_iff_ne_none, Ne, lookupKey_eq_none]
  exact not_not

theorem lookupKey_mem {α : Type} {l : List (String × α)} {k : String} {v : α}
    (h : lookupKey l k = some v) : (k, v) ∈ l := by
  induction l with
  | nil => simp [lookupKey] at h
  | cons hd tl ih =>
    obtain ⟨k', v'⟩ := hd
    by_cases hk : k = k'
    · simp [lookupKey, hk] at h
      subst hk; subst h; exact List.mem_cons_self _ _
    · simp [lookupKey, hk] at h
      exact List.mem_cons_of_mem _ (ih h)

theorem lookupKey_of_mem_nodup {α : Type} {l : List (String × α)} {k : String} {v : α}
    (hnd : (l.map Prod.fst).Nodup) (hm : (k, v) ∈ l) : lookupKey l k = some v := by
  induction l with
  | nil => simp at hm
  | cons hd tl ih =>
    obtain ⟨k', v'⟩ := hd
    have hnd' : k' ∉ tl.map Prod.fst ∧ (tl.map Prod.fst).Nodup := by
      simpa using hnd
    rcases List.mem_cons.mp hm with heq | htl
    · cases heq
      simp [lookupKey]
    · by_cases hk : k = k'
      · subst hk
        exact absurd (List.mem_map.mpr ⟨(k, v), htl, rfl⟩) hnd'.1
      · simpa [lookupKey, hk] using ih hnd'.2 htl

/-! ### Claim C10 — a falsy cached download count does not suppress the fetch -/

/-- Claim C10: when the persisted popularity cache maps a package name to
`0` (falsy) or has no entry at all, the orchestrator's
`packageDownloadCache[dep.name] || (await checkPackageDownloads(dep.name))`
performs the network fetch; only a truthy (nonzero) cached count suppresses
it and is used directly. -/
theorem falsy_download_cache_refetches :
    ∀ (cache : List (String × Int)) (name : String) (fetched : Int),
    (lookupKey cache name = none → getPackageDownloads cache name fetched = (fetched, true))
    ∧ (lookupKey cache name = some 0 → getPackageDownloads cache name fetched = (fetched, true))
    ∧ (∀ v, lookupKey cache name = some v → v ≠ 0 →
        getPackageDownloads cache name fetched = (v, false)) := by
  intro cache name fetched
  refine ⟨?_, ?_, ?_⟩
  · intro h; simp [getPackageDownloads, h]
  · intro h; simp [getPackageDownloads, h]
  · intro v h hv; simp [getPackageDownloads, h, hv]

/-- Witness for C10: a cached count of `0` for `"foo"` is present yet the
fetch still happens and its result is used. -/
theorem falsy_download_cache_refetches_witness :
    getPackageDownloads [("foo", 0)] "foo" 42 = (42, true) :=
  (falsy_download_cache_refetches [("foo", 0)] "foo" 42).2.1 rfl

/-! ### Claim C7 — the decide step of the reconciler -/

/-- Claim C7: with zero unapproved warnings the run succeeds with no prompt
and no write; with unapproved warnings in CI mode it exits 1 without
writing; interactively the rebuilt record is written exactly on answer
`"y"`, and any other answer exits 1 without writing. -/
theorem decideRun_contract :
    ∀ (n : Nat) (ci : Bool) (answer : String) (record : List CacheEntry),
    (n = 0 → decideRun n ci answer record = ⟨0, none, false⟩)
    ∧ (n ≠ 0 → ci = true → decideRun n ci answer record = ⟨1, none, false⟩)
    ∧ (n ≠ 0 → ci = false → answer = "y" → decideRun n ci answer record = ⟨0, some record, true⟩)
    ∧ (n ≠ 0 → ci = false → answer ≠ "y" → decideRun n ci answer record = ⟨1, none, true⟩) := by
  intro n ci answer record
  refine ⟨?_, ?_, ?_, ?_⟩
  · intro h; simp [decideRun, h]
  · intro h hci; simp [decideRun, h, hci]
  · intro h hci ha; simp [decideRun, h, hci, ha]
  · intro h hci ha; simp [decideRun, h, hci, ha]

/-- Witness for C7: one unapproved warning, interactive, answer `"n"`:
exit code 1, nothing written. -/
theorem decideRun_contract_witness :
    decideRun 1 false "n" [⟨"a", "script", "k"⟩] = ⟨1, none, true⟩ :=
  (decideRun_contract 1 false "n" [⟨"a", "script", "k"⟩]).2.2.2
    (by decide) rfl (by decide)

/-! ### Claim C6 — popularity fetch failure handling (code bug) -/

/-- Claim C6 (code bug): `checkPackageDownloads` in
`src/lib/package-downloads.ts` does **not** return the sentinel `-1` on
failure — a response without a numeric `downloads` field throws, and a
network error propagates, in both cases rejecting the surrounding
`Promise.all` batch.  The orchestrator's `downloads !== -1` guards (and the
sibling revision `src/unnamed/part_003`) expect `-1`. -/
theorem checkPackageDownloads_failure_throws :
    checkPackageDownloads (.ok ⟨none⟩) = .error "Bad response: no `downloads` field"
    ∧ checkPackageDownloads (.error "network error") = .error "network error"
    ∧ checkPackageDownloads (.ok ⟨none⟩) ≠ .ok (-1)
    ∧ checkPackageDownloads (.error "network error") ≠ .ok (-1) :=
  ⟨rfl, rfl, by simp [checkPackageDownloads], by simp [checkPackageDownloads]⟩

/-! ### Claim C5 — the minWeeklyDownloads warning and its cache key -/

/-- Claim C5 counterexample: the emitted warning's `cacheKey` is
`String(config.minWeeklyDownloads)` — `"100"` for threshold 100 — not the
literal `"minWeeklyDownloads=100"` the claim states. -/
theorem minWeeklyDownloads_cacheKey_counterexample :
    (minWeeklyDownloadsWarning 100 "foo" 5).map Warning.cacheKey = some "100"
    ∧ ("100" : String) ≠ "minWeeklyDownloads=" ++ toString (100 : Int) := by
  refine ⟨rfl, by decide⟩

/-- Claim C5 (amended): a `minWeeklyDownloads` warning is emitted exactly
when `downloads ≠ -1` and `downloads < threshold`, and its `cacheKey` is
the decimal rendering of the configured threshold (never the measured
count). -/
theorem minWeeklyDownloads_warning_contract :
    ∀ (t : Int) (name : String) (d : Int),
    ((minWeeklyDownloadsWarning t name d).isSome = true ↔ (d ≠ -1 ∧ d < t))
    ∧ (∀ w, minWeeklyDownloadsWarning t name d = some w →
        w.cacheKey = toString t ∧ w.type = "minWeeklyDownloads" ∧ w.package = name) := by
  intro t name d
  constructor
  · by_cases h : d ≠ -1 ∧ d < t <;> simp [minWeeklyDownloadsWarning, h]
  · intro w hw
    by_cases h : d ≠ -1 ∧ d < t
    · simp [minWeeklyDownloadsWarning, h] at hw
      subst hw
      exact ⟨rfl, rfl, rfl⟩
    · simp [minWeeklyDownloadsWarning, h] at hw

/-- Witness for the amended C5: threshold 100, 5 measured downloads — the
warning exists and carries cacheKey `"100"`. -/
theorem minWeeklyDownloads_warning_contract_witness :
    ({ package := "foo", message := "had 5 downloads last week",
       cacheKey := "100", type := "minWeeklyDownloads"} : Warning).cacheKey = toString (100 : Int)
    ∧ ({ package := "foo", message := "had 5 downloads last week",
         cacheKey := "100", type := "minWeeklyDownloads"} : Warning).type = "minWeeklyDownloads"
    ∧ ({ package := "foo", message := "had 5 downloads last week",
         cacheKey := "100", type := "minWeeklyDownloads"} : Warning).package = "foo" :=
  (minWeeklyDownloads_warning_contract 100 "foo" 5).2 _ rfl

/-! ### Claim C1 — warning identity in the reconciler -/

/-- Claim C1 counterexample: the approval index keys are the unseparated
concatenation `package ++ cacheKey ++ type`, so the prior entry
`(package "a", type "script", cacheKey "bc")` captures the distinct triple
`(package "ab", type "script", cacheKey "c")`: the warning is classified as
previously approved although its exact triple is absent from the record. -/
theorem approval_identity_collision_counterexample :
    isPreviouslyApproved [⟨"a", "script", "bc"⟩] ⟨"ab", "", "c", "script"⟩ = true
    ∧ ([(⟨"a", "script", "bc"⟩ : CacheEntry)].any
        (fun c => c.package == "ab" && c.type == "script" && c.cacheKey == "c")) = false := by
  exact ⟨rfl, rfl⟩

/-- Claim C1 (amended): a warning is classified as previously approved iff
some prior entry has the same concatenation `package ++ cacheKey ++ type`;
warnings with equal triples are always classified alike (distinct triples
may collide when the concatenations agree). -/
theorem approval_classification_contract :
    ∀ (prior : List CacheEntry) (w : Warning),
    (isPreviouslyApproved prior w = true ↔
      ∃ c, c ∈ prior ∧ entryIdentityConcat c = warningIdentityConcat w)
    ∧ (∀ w', w'.package = w.package → w'.type = w.type → w'.cacheKey = w.cacheKey →
        isPreviouslyApproved prior w' = isPreviouslyApproved prior w) := by
  intro prior w
  constructor
  · simp [isPreviouslyApproved, List.any_eq_true]
  · intro w' h1 h2 h3
    have hkey : warningIdentityConcat w' = warningIdentityConcat w := by
      unfold warningIdentityConcat
      rw [h1, h2, h3]
    simp [isPreviouslyApproved, hkey]

/-- Witness for the amended C1: the same triple under a different free-text
message is classified identically. -/
theorem approval_classification_contract_witness :
    isPreviouslyApproved [⟨"p", "script", "k"⟩] ⟨"p", "other message", "k", "script"⟩
      = isPreviouslyApproved [⟨"p", "script", "k"⟩] ⟨"p", "msg", "k", "script"⟩ :=
  (approval_classification_contract [⟨"p", "script", "k"⟩] ⟨"p", "msg", "k", "script"⟩).2
    ⟨"p", "other message", "k", "script"⟩ rfl rfl rfl

/-! ### Claim C2 — the rebuilt approval record is a sorted full replace -/

/-- Claim C2: the rebuilt approval record is exactly (as a multiset) the
identity triples of the currently collected warnings, sorted ascending by
package; in particular every entry originates from a current warning, so no
prior-record entry without a matching current warning survives. -/
theorem rebuild_record_full_replace :
    ∀ (prior : List CacheEntry) (W : List Warning),
    (rebuildApprovalRecord W).Perm (W.map entryOfWarning)
    ∧ List.Sorted entryLe (rebuildApprovalRecord W)
    ∧ (∀ e, e ∈ rebuildApprovalRecord W → ∃ w, w ∈ W ∧ entryOfWarning w = e)
    ∧ (∀ e, e ∈ prior → (∀ w, w ∈ W → entryOfWarning w ≠ e) →
        e ∉ rebuildApprovalRecord W) := by
  intro prior W
  have hperm : (rebuildApprovalRecord W).Perm (W.map entryOfWarning) :=
    List.perm_insertionSort _ _
  refine ⟨hperm, List.sorted_insertionSort _ _, ?_, ?_⟩
  · intro e he
    exact List.mem_map.mp (hperm.mem_iff.mp he)
  · intro e _ hnone he
    obtain ⟨w, hw, hwe⟩ := List.mem_map.mp (hperm.mem_iff.mp he)
    exact hnone w hw hwe

/-- Witness for C2: a stale prior entry with no matching current warning is
absent from the rebuilt record. -/
theorem rebuild_record_full_replace_witness :
    (⟨"stale", "script", "x"⟩ : CacheEntry)
      ∉ rebuildApprovalRecord [⟨"fresh", "m", "k", "script"⟩] :=
  (rebuild_record_full_replace [⟨"stale", "script", "x"⟩]
      [⟨"fresh", "m", "k", "script"⟩]).2.2.2
    ⟨"stale", "script", "x"⟩ (List.mem_singleton.mpr rfl) (by decide)

/-! ### Claim C3 — registry metadata cache -/

theorem fetchAndBuild_spec (pn v : String) (resp : RegistryResponse) :
    (fetchAndBuild true pn v resp).fetches = 1
    ∧ ∀ r, (fetchAndBuild true pn v resp).result = .ok r →
        (lookupKey r.versions v).isSome = true
        ∧ (fetchAndBuild true pn v resp).persisted = some r := by
  unfold fetchAndBuild
  cases hv : resp.versions with
  | none => simp
  | some vs =>
    by_cases hl : (lookupKey vs v).isSome = true
    · cases ht : resp.time with
      | none => simp [hl]
      | some tm =>
        cases htl : lookupKey tm v with
        | none => simp [hl, htl]
        | some o =>
          cases o with
          | none => simp [hl, htl]
          | some s =>
            refine ⟨by simp [hl, htl], ?_⟩
            intro r hr
            simp [hl, htl] at hr
            constructor
            · rw [← hr]
              exact hl
            · simp [hl, htl, hr]
    · simp [hl]

/-- Claim C3: with caching enabled, `cacheRegistry` returns the on-disk
record unchanged with zero fetches exactly when that record exists, has
`_version` 1 and its `versions` map contains the requested version; in
every other case it performs exactly one registry fetch, and whenever that
fetch path returns a record, the record contains the requested version and
is what gets persisted. -/
theorem cacheRegistry_contract :
    ∀ (disk : Option RegCacheRecord) (pn v : String) (resp : RegistryResponse),
    (∀ cache, disk = some cache → cache.formatVersion = 1 →
        (lookupKey cache.versions v).isSome = true →
        cacheRegistry true disk pn v resp = ⟨.ok cache, 0, none⟩)
    ∧ ((∀ cache, disk = some cache →
          ¬(cache.formatVersion = 1 ∧ (lookupKey cache.versions v).isSome = true)) →
        (cacheRegistry true disk pn v resp).fetches = 1
        ∧ ∀ r, (cacheRegistry true disk pn v resp).result = .ok r →
            (lookupKey r.versions v).isSome = true
            ∧ (cacheRegistry true disk pn v resp).persisted = some r) := by
  intro disk pn v resp
  cases disk with
  | none =>
    refine ⟨by intro cache h; exact absurd h (by simp), ?_⟩
    intro _
    simpa [cacheRegistry] using fetchAndBuild_spec pn v resp
  | some cache =>
    constructor
    · intro c hc h1 h2
      obtain rfl : cache = c := by injection hc
      simp [cacheRegistry, h1, h2]
    · intro hmiss
      have hc := hmiss cache rfl
      simpa [cacheRegistry, hc] using fetchAndBuild_spec pn v resp

/-- Witness for C3: a format-1 on-disk record containing `1.0.0` is
returned unchanged with zero fetches. -/
theorem cacheRegistry_contract_witness :
    cacheRegistry true
        (some ⟨1, [("1.0.0", some "2020-01-01T00:00:00.000Z")], [("1.0.0", ⟨some "MIT", []⟩)]⟩)
        "left-pad" "1.0.0" ⟨none, none⟩
      = ⟨.ok ⟨1, [("1.0.0", some "2020-01-01T00:00:00.000Z")], [("1.0.0", ⟨some "MIT", []⟩)]⟩, 0, none⟩ :=
  (cacheRegistry_contract
      (some ⟨1, [("1.0.0", some "2020-01-01T00:00:00.000Z")], [("1.0.0", ⟨some "MIT", []⟩)]⟩)
      "left-pad" "1.0.0" ⟨none, none⟩).1 _ rfl rfl rfl

/-! ### Extractor lemmas (claims C4, C8, C9) -/

theorem optOr_none_right {α : Type} (a : Option α) : optOr a none = a := by
  cases a <;> rfl

theorem collectDeps_lookup (cfg : Config) (sat : String → String → Bool) :
    ∀ (entries : List (String × LockSpec)) (acc res : List (String × Dependency)),
    collectDeps cfg sat entries acc = .ok res →
    ∀ key, lookupKey res key
      = optOr (lookupKey acc key) (firstOccurrenceDep cfg sat entries key) := by
  intro entries
  induction entries with
  | nil =>
    intro acc res h key
    simp only [collectDeps] at h
    obtain rfl : acc = res := by injection h
    simp [firstOccurrenceDep, optOr_none_right]
  | cons e rest ih =>
    obtain ⟨p, s⟩ := e
    intro acc res h key
    simp only [collectDeps] at h
    split_ifs at h with hp hl hdup hbl hig
    · simp only [firstOccurrenceDep, if_pos hp]
      exact ih acc res h key
    · rw [firstOccurrenceDep, if_neg hp, if_pos hl]
      exact ih acc res h key
    · have ihh := ih acc res h key
      by_cases hk : (lockEntryName p s ++ "@" ++ s.version) = key
      · obtain ⟨v, hv⟩ := Option.isSome_iff_exists.mp (hk ▸ hdup)
        rw [ihh, hv, optOr_some, optOr_some]
      · have hfirst : firstOccurrenceDep cfg sat ((p, s) :: rest) key
            = firstOccurrenceDep cfg sat rest key := by
          simp [firstOccurrenceDep, hp, hl, hk]
        rw [hfirst]
        exact ihh
    · have hfirst : firstOccurrenceDep cfg sat ((p, s) :: rest) key
          = firstOccurrenceDep cfg sat rest key := by
        by_cases hk : (lockEntryName p s ++ "@" ++ s.version) = key <;>
          simp [firstOccurrenceDep, hp, hl, hk, hig]
      rw [hfirst]
      exact ih acc res h key
    · have ihh := ih _ res h key
      rw [lookupKey_append] at ihh
      by_cases hk : (lockEntryName p s ++ "@" ++ s.version) = key
      · have hnone : lookupKey acc key = none := by
          rw [← hk]
          exact Option.not_isSome_iff_eq_none.mp hdup
        have hsingle :
            lookupKey [((lockEntryName p s ++ "@" ++ s.version), depOfEntry p s)] key
              = some (depOfEntry p s) := by
          rw [← hk]
          simp [lookupKey]
        have hfirst : firstOccurrenceDep cfg sat ((p, s) :: rest) key
            = some (depOfEntry p s) := by
          simp [firstOccurrenceDep, hp, hl, hk, hig]
        rw [ihh, hnone, hsingle, hfirst]
        rfl
      · have hsingle :
            lookupKey [((lockEntryName p s ++ "@" ++ s.version), depOfEntry p s)] key
              = none := by
          simp only [lookupKey]
          rw [if_neg (fun hh => hk hh.symm)]
        have hfirst : firstOccurrenceDep cfg sat ((p, s) :: rest) key
            = firstOccurrenceDep cfg sat rest key := by
          simp [firstOccurrenceDep, hp, hl, hk]
        rw [ihh, hsingle, optOr_none_right, hfirst]

theorem collectDeps_keys_nodup (cfg : Config) (sat : String → String → Bool) :
    ∀ (entries : List (String × LockSpec)) (acc res : List (String × Dependency)),
    collectDeps cfg sat entries acc = .ok res →
    (acc.map Prod.fst).Nodup → (res.map Prod.fst).Nodup := by
  intro entries
  induction entries with
  | nil =>
    intro acc res h hnd
    simp only [collectDeps] at h
    obtain rfl : acc = res := by injection h
    exact hnd
  | cons e rest ih =>
    obtain ⟨p, s⟩ := e
    intro acc res h hnd
    simp only [collectDeps] at h
    split_ifs at h with hp hl hdup hig
    · exact ih acc res h hnd
    · exact ih acc res h hnd
    · exact ih acc res h hnd
    · exact ih acc res h hnd
    · refine ih _ res h ?_
      have hnotin : (lockEntryName p s ++ "@" ++ s.version) ∉ acc.map Prod.fst := by
        rw [← lookupKey_eq_none]
        exact Option.not_isSome_iff_eq_none.mp hdup
      simp [List.nodup_append, hnd, hnotin]

theorem collectDeps_origin (cfg : Config) (sat : String → String → Bool) :
    ∀ (entries : List (String × LockSpec)) (acc res : List (String × Dependency)),
    collectDeps cfg sat entries acc = .ok res →
    ∀ kd, kd ∈ res → kd ∈ acc
      ∨ ∃ p s, (p, s) ∈ entries ∧ p ≠ "" ∧ s.link = false
          ∧ blacklistHit cfg sat (lockEntryName p s) s.version = false
          ∧ kd = (lockEntryName p s ++ "@" ++ s.version, depOfEntry p s) := by
  intro entries
  induction entries with
  | nil =>
    intro acc res h kd hkd
    simp only [collectDeps] at h
    obtain rfl : acc = res := by injection h
    exact Or.inl hkd
  | cons e rest ih =>
    obtain ⟨p, s⟩ := e
    intro acc res h kd hkd
    simp only [collectDeps] at h
    split_ifs at h with hp hl hdup hbl hig
    · rcases ih acc res h kd hkd with hacc | ⟨p', s', hmem, h1, h2, h3, h4⟩
      · exact Or.inl hacc
      · exact Or.inr ⟨p', s', List.mem_cons_of_mem _ hmem, h1, h2, h3, h4⟩
    · rcases ih acc res h kd hkd with hacc | ⟨p', s', hmem, h1, h2, h3, h4⟩
      · exact Or.inl hacc
      · exact Or.inr ⟨p', s', List.mem_cons_of_mem _ hmem, h1, h2, h3, h4⟩
    · rcases ih acc res h kd hkd with hacc | ⟨p', s', hmem, h1, h2, h3, h4⟩
      · exact Or.inl hacc
      · exact Or.inr ⟨p', s', List.mem_cons_of_mem _ hmem, h1, h2, h3, h4⟩
    · rcases ih acc res h kd hkd with hacc | ⟨p', s', hmem, h1, h2, h3, h4⟩
      · exact Or.inl hacc
      · exact Or.inr ⟨p', s', List.mem_cons_of_mem _ hmem, h1, h2, h3, h4⟩
    · rcases ih _ res h kd hkd with hacc | ⟨p', s', hmem, h1, h2, h3, h4⟩
      · rcases List.mem_append.mp hacc with hacc' | hnew
        · exact Or.inl hacc'
        · exact Or.inr ⟨p, s, List.mem_cons_self _ _, hp,
            Bool.eq_false_iff.mpr hl, Bool.eq_false_iff.mpr hbl,
            List.mem_singleton.mp hnew⟩
      · exact Or.inr ⟨p', s', List.mem_cons_of_mem _ hmem, h1, h2, h3, h4⟩

theorem collectDeps_ok_blacklist (cfg : Config) (sat : String → String → Bool) :
    ∀ (entries : List (String × LockSpec)) (acc res : List (String × Dependency)),
    collectDeps cfg sat entries acc = .ok res →
    ∀ p s, (p, s) ∈ entries → p ≠ "" → s.link = false →
      blacklistHit cfg sat (lockEntryName p s) s.version = true →
      (lockEntryName p s ++ "@" ++ s.version) ∈ acc.map Prod.fst
      ∨ ∃ p' s', (p', s') ∈ entries ∧ p' ≠ "" ∧ s'.link = false
          ∧ blacklistHit cfg sat (lockEntryName p' s') s'.version = false
          ∧ lockEntryName p' s' ++ "@" ++ s'.version
              = lockEntryName p s ++ "@" ++ s.version := by
  intro entries
  induction entries with
  | nil =>
    intro acc res h p s hm
    simp at hm
  | cons e rest ih =>
    obtain ⟨q, t⟩ := e
    intro acc res h p s hm hp0 hl0 hbl0
    simp only [collectDeps] at h
    split_ifs at h with hq hlq hdup hblq hig
    · rcases List.mem_cons.mp hm with heq | hmem
      · injection heq with h1 h2
        subst h1
        exact absurd hq hp0
      · rcases ih acc res h p s hmem hp0 hl0 hbl0 with hleft | ⟨p', s', hmem', h1, h2, h3, h4⟩
        · exact Or.inl hleft
        · exact Or.inr ⟨p', s', List.mem_cons_of_mem _ hmem', h1, h2, h3, h4⟩
    · rcases List.mem_cons.mp hm with heq | hmem
      · injection heq with h1 h2
        subst h1
        subst h2
        rw [hl0] at hlq
        exact absurd hlq (by simp)
      · rcases ih acc res h p s hmem hp0 hl0 hbl0 with hleft | ⟨p', s', hmem', h1, h2, h3, h4⟩
        · exact Or.inl hleft
        · exact Or.inr ⟨p', s', List.mem_cons_of_mem _ hmem', h1, h2, h3, h4⟩
    · rcases List.mem_cons.mp hm with heq | hmem
      · injection heq with h1 h2
        subst h1
        subst h2
        exact Or.inl ((lookupKey_isSome_iff acc _).mp hdup)
      · rcases ih acc res h p s hmem hp0 hl0 hbl0 with hleft | ⟨p', s', hmem', h1, h2, h3, h4⟩
        · exact Or.inl hleft
        · exact Or.inr ⟨p', s', List.mem_cons_of_mem _ hmem', h1, h2, h3, h4⟩
    · rcases List.mem_cons.mp hm with heq | hmem
      · injection heq with h1 h2
        subst h1
        subst h2
        exact absurd hbl0 hblq
      · rcases ih acc res h p s hmem hp0 hl0 hbl0 with hleft | ⟨p', s', hmem', h1, h2, h3, h4⟩
        · exact Or.inl hleft
        · exact Or.inr ⟨p', s', List.mem_cons_of_mem _ hmem', h1, h2, h3, h4⟩
    · rcases List.mem_cons.mp hm with heq | hmem
      · injection heq with h1 h2
        subst h1
        subst h2
        exact absurd hbl0 hblq
      · rcases ih _ res h p s hmem hp0 hl0 hbl0 with hleft | ⟨p', s', hmem', h1, h2, h3, h4⟩
        · rw [List.map_append] at hleft
          rcases List.mem_append.mp hleft with hin | hnew
          · exact Or.inl hin
          · have hkeq : lockEntryName q t ++ "@" ++ t.version
                = lockEntryName p s ++ "@" ++ s.version := by
              have := List.mem_singleton.mp (by simpa using hnew)
              exact this.symm
            exact Or.inr ⟨q, t, List.mem_cons_self _ _, hq,
              Bool.eq_false_iff.mpr hlq, Bool.eq_false_iff.mpr hblq, hkeq⟩
        · exact Or.inr ⟨p', s', List.mem_cons_of_mem _ hmem', h1, h2, h3, h4⟩

/-! ### Claim C8 — deduplication, first occurrence wins, sorted output -/

/-- Claim C8: a successful extraction yields a list sorted ascending by
package name, containing at most one dependency per `(name, version)` pair,
and each of its members is exactly the dependency built from the first
eligible (non-root, non-linked, non-ignored) lockfile entry bearing its
`name@version` key — later duplicates are dropped. -/
theorem extractor_dedup_sorted_first_wins :
    ∀ (cfg : Config) (sat : String → String → Bool)
      (entries : List (String × LockSpec)) (deps : List Dependency),
    readInstalledPackagesFromLockfile cfg sat entries = .ok deps →
    List.Sorted depLe deps
    ∧ List.Pairwise (fun a b => ¬(a.name = b.name ∧ a.version = b.version)) deps
    ∧ (∀ d, d ∈ deps ↔ ∃ key, firstOccurrenceDep cfg sat entries key = some d) := by
  intro cfg sat entries deps h
  unfold readInstalledPackagesFromLockfile at h
  cases hc : collectDeps cfg sat entries [] with
  | error msg =>
    rw [hc] at h
    exact absurd h (by simp [Except.map])
  | ok acc =>
    rw [hc] at h
    simp only [Except.map] at h
    obtain rfl : List.insertionSort depLe (acc.map Prod.snd) = deps := by injection h
    have hperm : (List.insertionSort depLe (acc.map Prod.snd)).Perm (acc.map Prod.snd) :=
      List.perm_insertionSort _ _
    have hnd : (acc.map Prod.fst).Nodup :=
      collectDeps_keys_nodup cfg sat entries [] acc hc (by simp)
    have hkeys : ∀ kd ∈ acc, kd.1 = keyOfDep kd.2 := by
      intro kd hkd
      rcases collectDeps_origin cfg sat entries [] acc hc kd hkd with hin | ⟨p, s, _, _, _, _, hkd'⟩
      · simp at hin
      · rw [hkd']
        rfl
    refine ⟨List.sorted_insertionSort _ _, ?_, ?_⟩
    · have hmapeq : acc.map Prod.fst = acc.map (fun kd => keyOfDep kd.2) :=
        List.map_congr_left hkeys
      have hnd3 : ((acc.map Prod.snd).map keyOfDep).Nodup := by
        rw [List.map_map]
        exact hmapeq ▸ hnd
      have hnd4 : ((List.insertionSort depLe (acc.map Prod.snd)).map keyOfDep).Nodup :=
        ((hperm.map keyOfDep).nodup_iff).mpr hnd3
      have hpw := (List.pairwise_map).mp hnd4
      exact hpw.imp (by
        intro a b hab hcontra
        exact hab (by rw [keyOfDep, keyOfDep, hcontra.1, hcontra.2]))
    · intro d
      constructor
      · intro hd
        obtain ⟨kd, hkd, rfl⟩ := List.mem_map.mp (hperm.mem_iff.mp hd)
        have hmem : (kd.1, kd.2) ∈ acc := by simpa using hkd
        have hlook : lookupKey acc kd.1 = some kd.2 := lookupKey_of_mem_nodup hnd hmem
        have hlk := collectDeps_lookup cfg sat entries [] acc hc kd.1
        rw [hlook] at hlk
        exact ⟨kd.1, hlk.symm⟩
      · rintro ⟨key, hkey⟩
        have hlk := collectDeps_lookup cfg sat entries [] acc hc key
        have hlook : lookupKey acc key = some d := by
          rw [hlk]
          exact hkey
        exact hperm.mem_iff.mpr (List.mem_map.mpr ⟨(key, d), lookupKey_mem hlook, rfl⟩)

/-- Witness for C8: `node_modules/foo` and `node_modules/bar/node_modules/foo`
both resolving to `foo@1.0.0` yield a single sorted entry whose dependency is
the first occurrence. -/
theorem extractor_dedup_sorted_first_wins_witness :
    List.Sorted depLe [⟨"foo", "node_modules/foo", "1.0.0", none⟩]
    ∧ List.Pairwise
        (fun a b => ¬(a.name = b.name ∧ a.version = b.version))
        [(⟨"foo", "node_modules/foo", "1.0.0", none⟩ : Dependency)]
    ∧ (∀ d, d ∈ [(⟨"foo", "node_modules/foo", "1.0.0", none⟩ : Dependency)]
        ↔ ∃ key, firstOccurrenceDep ⟨none, none, true, [], [], []⟩ (fun _ _ => false)
            [("node_modules/foo", ⟨some "foo", "1.0.0", none, false, false⟩),
             ("node_modules/bar/node_modules/foo", ⟨some "foo", "1.0.0", none, false, false⟩)]
            key = some d) :=
  extractor_dedup_sorted_first_wins ⟨none, none, true, [], [], []⟩ (fun _ _ => false)
    [("node_modules/foo", ⟨some "foo", "1.0.0", none, false, false⟩),
     ("node_modules/bar/node_modules/foo", ⟨some "foo", "1.0.0", none, false, false⟩)]
    [⟨"foo", "node_modules/foo", "1.0.0", none⟩] rfl

/-! ### Claim C9 — which lockfile entries are skipped -/

/-- Claim C9 counterexample: an entry marked `optional: true` is **not**
skipped by the extractor in `src/lib/index.ts` (only the root entry and
`link: true` entries are); it yields a Dependency. -/
theorem optional_entry_not_skipped_counterexample :
    readInstalledPackagesFromLockfile ⟨none, none, true, [], [], []⟩ (fun _ _ => false)
        [("node_modules/foo", ⟨some "foo", "1.0.0", none, false, true⟩)]
      = .ok [⟨"foo", "node_modules/foo", "1.0.0", none⟩]
    ∧ (⟨some "foo", "1.0.0", none, false, true⟩ : LockSpec).optional = true :=
  ⟨rfl, rfl⟩

/-- Claim C9 (amended): the extractor emits no Dependency for the root
entry (empty install path) or for entries marked `link: true` — every
emitted dependency originates from a non-root, non-linked entry.  Entries
marked `optional: true` are not skipped (see the counterexample). -/
theorem extractor_skips_root_and_link :
    ∀ (cfg : Config) (sat : String → String → Bool)
      (entries : List (String × LockSpec)) (deps : List Dependency),
    readInstalledPackagesFromLockfile cfg sat entries = .ok deps →
    ∀ d, d ∈ deps →
      ∃ p s, (p, s) ∈ entries ∧ p ≠ "" ∧ s.link = false ∧ d = depOfEntry p s := by
  intro cfg sat entries deps h d hd
  unfold readInstalledPackagesFromLockfile at h
  cases hc : collectDeps cfg sat entries [] with
  | error msg =>
    rw [hc] at h
    exact absurd h (by simp [Except.map])
  | ok acc =>
    rw [hc] at h
    simp only [Except.map] at h
    obtain rfl : List.insertionSort depLe (acc.map Prod.snd) = deps := by injection h
    have hperm : (List.insertionSort depLe (acc.map Prod.snd)).Perm (acc.map Prod.snd) :=
      List.perm_insertionSort _ _
    obtain ⟨kd, hkd, rfl⟩ := List.mem_map.mp (hperm.mem_iff.mp hd)
    rcases collectDeps_origin cfg sat entries [] acc hc kd hkd with hin | ⟨p, s, hmem, h1, h2, _, hkd'⟩
    · simp at hin
    · exact ⟨p, s, hmem, h1, h2, by rw [hkd']⟩

/-- Witness for the amended C9: the sole dependency of the optional-entry
run originates from its non-root, non-linked entry. -/
theorem extractor_skips_root_and_link_witness :
    ∃ p s, (p, s) ∈ [("node_modules/foo", (⟨some "foo", "1.0.0", none, false, true⟩ : LockSpec))]
      ∧ p ≠ "" ∧ s.link = false
      ∧ (⟨"foo", "node_modules/foo", "1.0.0", none⟩ : Dependency) = depOfEntry p s :=
  extractor_skips_root_and_link ⟨none, none, true, [], [], []⟩ (fun _ _ => false)
    [("node_modules/foo", ⟨some "foo", "1.0.0", none, false, true⟩)]
    [⟨"foo", "node_modules/foo", "1.0.0", none⟩] rfl
    ⟨"foo", "node_modules/foo", "1.0.0", none⟩ (List.mem_singleton.mpr rfl)

/-! ### Claim C4 — blacklist precedence -/

/-- Claim C4 counterexample: a lockfile entry marked `link: true` whose
`(name, version)` satisfies the blacklist range (the semver oracle returns
`true` for it) does **not** abort extraction — linked entries are skipped
before the blacklist check — even though `ignore` matches as well. -/
theorem blacklisted_link_entry_counterexample :
    readInstalledPackagesFromLockfile
        ⟨none, none, true, [], [("foo", "*")], [("foo", "*")]⟩
        (fun _ _ => true)
        [("node_modules/foo", ⟨some "foo", "1.0.0", none, true, false⟩)]
      = .ok []
    ∧ ((fun _ _ => true : String → String → Bool) "1.0.0" "*") = true :=
  ⟨rfl, rfl⟩

/-- Claim C4 (amended): if some lockfile entry that is neither the root
entry nor marked `link: true` matches the blacklist (and no other non-root,
non-linked entry of a different `(name, version)` pair concatenates to the
same `name@version` deduplication key), extraction throws a fatal error —
regardless of `ignore` also matching, since the blacklist check precedes
the ignore check — and the run performs zero network fetches, because
`processRepo` only enters its fetch loop after extraction succeeds. -/
theorem blacklist_aborts_run_before_fetch :
    ∀ (cfg : Config) (sat : String → String → Bool)
      (entries : List (String × LockSpec)),
    (∃ p s, (p, s) ∈ entries ∧ p ≠ "" ∧ s.link = false
      ∧ blacklistHit cfg sat (lockEntryName p s) s.version = true
      ∧ (∀ p' s', (p', s') ∈ entries → p' ≠ "" → s'.link = false →
          lockEntryName p' s' ++ "@" ++ s'.version
            = lockEntryName p s ++ "@" ++ s.version →
          lockEntryName p' s' = lockEntryName p s ∧ s'.version = s.version)) →
    (∃ msg, readInstalledPackagesFromLockfile cfg sat entries = .error msg)
    ∧ (∀ plan, runNetworkFetches cfg sat entries plan = 0) := by
  rintro cfg sat entries ⟨p, s, hmem, hp, hl, hbl, hhonest⟩
  have herr : ∃ msg, collectDeps cfg sat entries [] = .error msg := by
    cases hc : collectDeps cfg sat entries [] with
    | error msg => exact ⟨msg, rfl⟩
    | ok res =>
      exfalso
      rcases collectDeps_ok_blacklist cfg sat entries [] res hc p s hmem hp hl hbl with
        hin | ⟨p', s', hmem', hp', hl', hbl', hkeq⟩
      · simp at hin
      · obtain ⟨hn, hv⟩ := hhonest p' s' hmem' hp' hl' hkeq
        rw [hn, hv] at hbl'
        rw [hbl] at hbl'
        exact Bool.noConfusion hbl'
  obtain ⟨msg, hmsg⟩ := herr
  constructor
  · refine ⟨msg, ?_⟩
    unfold readInstalledPackagesFromLockfile
    rw [hmsg]
    rfl
  · intro plan
    unfold runNetworkFetches readInstalledPackagesFromLockfile
    rw [hmsg]
    rfl

/-- Witness for the amended C4: a blacklisted `foo@1.0.0` (with `ignore`
matching too) aborts extraction and the run performs zero fetches. -/
theorem blacklist_aborts_run_before_fetch_witness :
    runNetworkFetches ⟨none, none, true, [], [("foo", "*")], [("foo", "*")]⟩
      (fun _ _ => true)
      [("node_modules/foo", ⟨some "foo", "1.0.0", none, false, false⟩)]
      (fun deps => deps.length + 1) = 0 :=
  (blacklist_aborts_run_before_fetch
      ⟨none, none, true, [], [("foo", "*")], [("foo", "*")]⟩
      (fun _ _ => true)
      [("node_modules/foo", ⟨some "foo", "1.0.0", none, false, false⟩)]
      ⟨"node_modules/foo", ⟨some "foo", "1.0.0", none, false, false⟩,
        List.mem_singleton.mpr rfl, by decide, rfl, rfl,
        by
          intro p' s' hm' _ _ _
          have := List.mem_singleton.mp hm'
          injection this with h1 h2
          subst h1
          subst h2
          exact ⟨rfl, rfl⟩⟩).2
    (fun deps => deps.length + 1)

end PackagePolicy
